import Mathlib

/-!
Verification of the drawboy pattern-navigation and progress-estimation engine.

This file gives a shallow embedding of the core logic of the repository:

* `Ewma` and `Ewma.record` embed `src/ewma.rs` (`Ewma::record`), with the
  `f32` fields modelled as exact rationals.
* `advance` and `retreat` embed the position updates of
  `MyApp::control_buttons` (`src/app.rs:141-169`); machine `u32` values are
  modelled as `Nat` (the `checked_sub` call is embedded explicitly).
* The window calculators of `MyApp::show_threading` (`src/app.rs:325-399`)
  and `MyApp::show_liftplan` (`src/app.rs:252-323`) are embedded as pure
  functions over an abstract pattern-data provider (`lookup`, `color`).
* `AppState` with `advanceStep` / `unpauseTimer` embeds the timing side of
  `MyApp::control_buttons` and the pause buttons in `MyApp::update`
  (`src/app.rs:458-464`), with timestamps as rationals.
* `wrappingSubU32` / `timingsDisplay` embed the ETA arithmetic of
  `MyApp::timings` (`src/app.rs:225-246`), with the `u32` subtraction made
  explicit modulo `2 ^ 32`.

Theorems below settle the testable properties stated for this engine.
-/

/-- Embedding of the `Ewma` struct of `src/ewma.rs`: `alpha` and `value` are
the `f32` fields modelled as rationals, `n` is the `usize` sample count. -/
structure Ewma where
  alpha : ℚ
  value : ℚ
  n : Nat
deriving DecidableEq

/-- Embedding of `Ewma::new` (`src/ewma.rs:11-17`). -/
def Ewma.new (alpha : ℚ) : Ewma :=
  ⟨alpha, 0, 0⟩

/-- Embedding of `Ewma::record` (`src/ewma.rs:18-30`): when `n = 0` the value
is first set to the measurement; then, when `n < 20`, an effective weight
`alpha + (1 / (1 + n)) * (1 - alpha)` is used, otherwise the fixed `alpha`;
finally `n` is incremented. -/
def Ewma.record (e : Ewma) (measurement : ℚ) : Ewma :=
  let value0 := if e.n = 0 then measurement else e.value
  let value1 :=
    if e.n < 20 then
      let alpha := e.alpha + 1 / (1 + (e.n : ℚ)) * (1 - e.alpha)
      alpha * measurement + (1 - alpha) * value0
    else
      e.alpha * measurement + (1 - e.alpha) * value0
  ⟨e.alpha, value1, e.n + 1⟩

/-- Embedding of `Ewma::reset` (`src/ewma.rs:32-35`). -/
def Ewma.reset (e : Ewma) : Ewma :=
  ⟨e.alpha, 0, 0⟩

/-- Embedding of the Advance position update of `MyApp::control_buttons`
(`src/app.rs:142-145`): `*var += 1; if *var > last_row { *var = 1; }`. -/
def advance (lastRow var : Nat) : Nat :=
  if var + 1 > lastRow then 1 else var + 1

/-- Embedding of `u32::checked_sub` as used at `src/app.rs:159`. -/
def checkedSub (a b : Nat) : Option Nat :=
  if b ≤ a then some (a - b) else none

/-- Embedding of the Retreat position update of `MyApp::control_buttons`
(`src/app.rs:158-168`): `checked_sub(1)`, with both the `None` case and the
`new_row == 0` case wrapping to `last_row`. -/
def retreat (lastRow var : Nat) : Nat :=
  match checkedSub var 1 with
  | some newRow => if newRow = 0 then lastRow else newRow
  | none => lastRow

/-- Embedding of the `OperationMode` enum of `src/app.rs:40-44`. -/
inductive OperationMode
  | liftplan
  | treadling
  | threading
deriving DecidableEq

/-- Embedding of the `ThreadingMode` enum of `src/app.rs:48-51`. -/
inductive ThreadingMode
  | continuous
  | batched
deriving DecidableEq

/-- Window of thread indices computed by `MyApp::show_threading`
(`src/app.rs:327-335`): in Continuous sub-mode `(warp as i32 - 2..).take(cols)`;
in Batched sub-mode the range starts at
`(warp - 1) / batch_size * batch_size + 1` (`u32` division, then cast). -/
def threadingRange (tm : ThreadingMode) (warp batchSize : Nat) : List Int :=
  let cols := batchSize
  match tm with
  | .continuous => (List.range cols).map fun i : Nat => (warp : Int) - 2 + (i : Int)
  | .batched =>
    let start : Int := ((warp - 1) / batchSize * batchSize + 1 : Nat)
    (List.range cols).map fun i : Nat => start + (i : Int)

/-- Embedding of the `threading` vector built at `src/app.rs:336-350`: each
window index is paired with the provider lookup result, guarded only by
`thread <= 0` (the upper bound is not checked at this point). -/
def threadingEntries (lookup : Nat → Option (List Nat)) (tm : ThreadingMode)
    (warp batchSize : Nat) : List (Int × Option (List Nat)) :=
  (threadingRange tm warp batchSize).map fun thread =>
    (thread, if thread ≤ 0 then none else lookup thread.toNat)

/-- Indices at which the vector construction of `src/app.rs:336-350` invokes
the provider lookup (`threading.get`): exactly the window indices with
`thread > 0`, irrespective of `last_row`. -/
def threadingLookupCalls (tm : ThreadingMode) (warp batchSize : Nat) : List Int :=
  (threadingRange tm warp batchSize).filter fun thread => decide (0 < thread)

/-- Rendered outcome of one window slot. -/
inductive ThreadingCell
  | placeholder
  | rendered (thread : Nat) (color : Option (Nat × Nat × Nat))
      (shafts : Option (List Nat))
deriving DecidableEq

/-- Embedding of the strip loop of `MyApp::show_threading`
(`src/app.rs:354-397`): a slot with `thread <= 0 || thread > last_row` is
`strip.empty()` (a placeholder); otherwise the cell is rendered with the
`warp_color_u8` color and the shafts from the prepared vector. -/
def threadingCells (lookup : Nat → Option (List Nat))
    (color : Nat → Option (Nat × Nat × Nat)) (tm : ThreadingMode)
    (warp batchSize lastRow : Nat) : List (Int × ThreadingCell) :=
  (threadingEntries lookup tm warp batchSize).map fun e =>
    (e.1,
      if e.1 ≤ 0 ∨ (lastRow : Int) < e.1 then ThreadingCell.placeholder
      else ThreadingCell.rendered e.1.toNat (color e.1.toNat) e.2)

/-- Fixed window offsets of the row loop of `MyApp::show_liftplan`
(`src/app.rs:268`). -/
def liftplanOffsets : List Int := [-2, -1, 0, 1, 2, 3, 4, 5, 6]

/-- Rendered outcome of one liftplan/treadling window row. -/
inductive LiftplanCell
  | placeholder
  | rendered (rowNum : Nat) (color : Option (Nat × Nat × Nat)) (shafts : List Nat)
deriving DecidableEq

/-- Embedding of the row loop of `MyApp::show_liftplan`
(`src/app.rs:267-321`): `row_num = row + offset` is checked against
`[1, last_row]` before the provider lookup happens (`lift_plan.get`, or the
treadling equivalent, abstracted as `lookup`); rows with no data also render
empty. -/
def liftplanCells (lookup : Nat → Option (List Nat))
    (color : Nat → Option (Nat × Nat × Nat)) (row lastRow : Nat) :
    List (Int × LiftplanCell) :=
  liftplanOffsets.map fun offset =>
    ((row : Int) + offset,
      if (row : Int) + offset ≤ 0 ∨ (lastRow : Int) < (row : Int) + offset then
        LiftplanCell.placeholder
      else
        match lookup ((row : Int) + offset).toNat with
        | some shafts =>
          LiftplanCell.rendered ((row : Int) + offset).toNat
            (color ((row : Int) + offset).toNat) shafts
        | none => LiftplanCell.placeholder)

/-- Row indices at which the loop of `MyApp::show_liftplan` invokes the
provider lookup: only rows that passed the `[1, last_row]` bound check. -/
def liftplanLookupCalls (row lastRow : Nat) : List Int :=
  (liftplanOffsets.map fun offset => (row : Int) + offset).filter
    fun rowNum => decide (¬ (rowNum ≤ 0 ∨ (lastRow : Int) < rowNum))

/-- Embedding of the engine-relevant fields of `MyApp` (`src/app.rs:24-36`):
the two positions, the EWMA estimator, the last step timestamp (rational
seconds) and the pause flag, plus the mode selections. -/
structure AppState where
  row : Nat
  warp : Nat
  averageRowSpeed : Ewma
  lastT : ℚ
  timerPaused : Bool
  mode : OperationMode
  threadingMode : ThreadingMode
  threadingBatchSize : Nat
deriving DecidableEq

/-- Embedding of `MyApp::threading_mode` (`src/app.rs:248-250`). -/
def AppState.threadingModeActive (s : AppState) : Bool :=
  decide (s.mode = OperationMode.threading)

/-- Active position variable selected at `src/app.rs:136-140`. -/
def AppState.activeVar (s : AppState) : Nat :=
  if s.threadingModeActive then s.warp else s.row

/-- Write-back of the active position variable (`src/app.rs:136-140`). -/
def AppState.setActiveVar (s : AppState) (v : Nat) : AppState :=
  if s.threadingModeActive then { s with warp := v } else { s with row := v }

/-- Embedding of the Advance branch of `MyApp::control_buttons`
(`src/app.rs:141-151`) at wall-clock time `now`: the active position advances
with wraparound; unless the timer is paused, the elapsed time since `last_t`
is recorded as a sample; `last_t` is reset to `now` in every case. -/
def advanceStep (s : AppState) (lastRow : Nat) (now : ℚ) : AppState :=
  let s1 := s.setActiveVar (advance lastRow s.activeVar)
  let s2 :=
    if ¬ s1.timerPaused then
      { s1 with averageRowSpeed := s1.averageRowSpeed.record (now - s1.lastT) }
    else s1
  { s2 with lastT := now }

/-- Embedding of the Retreat branch of `MyApp::control_buttons`
(`src/app.rs:158-169`): no sample is ever recorded, `last_t` resets. -/
def retreatStep (s : AppState) (lastRow : Nat) (now : ℚ) : AppState :=
  let s1 := s.setActiveVar (retreat lastRow s.activeVar)
  { s1 with lastT := now }

/-- Embedding of the pause button (`src/app.rs:458-460`). -/
def pauseTimer (s : AppState) : AppState :=
  { s with timerPaused := true }

/-- Embedding of the unpause button (`src/app.rs:461-464`): unpausing resets
`last_t` to the current time. -/
def unpauseTimer (s : AppState) (now : ℚ) : AppState :=
  { s with timerPaused := false, lastT := now }

/-- Wrapping `u32` subtraction: the value computed by `last_row - row` at
`src/app.rs:237` in 32-bit machine arithmetic, made explicit modulo `2 ^ 32`. -/
def wrappingSubU32 (a b : Nat) : Nat :=
  (((a : Int) - (b : Int)) % (2 ^ 32 : Int)).toNat

/-- ETA in whole seconds computed at `src/app.rs:237`:
`((last_row - row) as f32 * value) as u64`, the nonnegative product truncated
to an integer. -/
def etaSeconds (lastRow row : Nat) (avg : ℚ) : Nat :=
  (Rat.floor ((wrappingSubU32 lastRow row : ℚ) * avg)).toNat

/-- Embedding of the ETA display of `MyApp::timings` (`src/app.rs:236-242`):
shown only when the smoothed value exceeds `0.1`, decomposed into hours,
minutes and seconds of `etaSeconds`. -/
def timingsDisplay (lastRow row : Nat) (avg : ℚ) : Option (Nat × Nat × Nat) :=
  if (1 : ℚ) / 10 < avg then
    some (etaSeconds lastRow row avg / 3600,
      (etaSeconds lastRow row avg % 3600) / 60,
      etaSeconds lastRow row avg % 60)
  else none

/-- Membership in an integer window of `len` slots starting at `s`. -/
theorem mem_intRange (s : Int) (len : Nat) (t : Int) :
    t ∈ (List.range len).map (fun i : Nat => s + (i : Int)) ↔ s ≤ t ∧ t < s + len := by
  simp only [List.mem_map, List.mem_range]
  constructor
  · rintro ⟨i, hi, rfl⟩
    omega
  · rintro ⟨h1, h2⟩
    exact ⟨(t - s).toNat, by omega, by omega⟩

/-- The third slot of an integer window starting at `s` is `s + 2`. -/
theorem getElem2_intRange (s : Int) (len : Nat) (h : 2 < len) :
    ((List.range len).map (fun i : Nat => s + (i : Int)))[2]? = some (s + 2) := by
  rw [List.getElem?_map, List.getElem?_range h]
  norm_num

/-- An integer window of `len` slots has length `len`. -/
theorem length_intRange (s : Int) (len : Nat) :
    ((List.range len).map (fun i : Nat => s + (i : Int))).length = len := by
  rw [List.length_map, List.length_range]

/-- On positions `1 ≤ p ≤ n` the advance update is rotation by one:
`advance n p = p % n + 1`. -/
theorem advance_eq_mod (n p : Nat) (hn : 1 ≤ n) (hp1 : 1 ≤ p) (hpn : p ≤ n) :
    advance n p = p % n + 1 := by
  unfold advance
  rcases eq_or_lt_of_le hpn with h | h
  · subst h
    rw [if_pos (by omega), Nat.mod_self]
  · rw [if_neg (by omega), Nat.mod_eq_of_lt h]

/-- Iterating the advance update `k` times from a position `1 ≤ p ≤ n`
lands on `(p - 1 + k) % n + 1`. -/
theorem advance_iterate (n p k : Nat) (hn : 1 ≤ n) (hp1 : 1 ≤ p) (hpn : p ≤ n) :
    (advance n)^[k] p = (p - 1 + k) % n + 1 := by
  induction k with
  | zero =>
    simp only [Function.iterate_zero, id_eq, Nat.add_zero]
    rw [Nat.mod_eq_of_lt (by omega)]
    omega
  | succ k ih =>
    rw [Function.iterate_succ_apply', ih]
    have hlt : (p - 1 + k) % n < n := Nat.mod_lt _ (by omega)
    rw [advance_eq_mod n _ hn (by omega) (by omega)]
    rw [Nat.mod_add_mod, Nat.add_assoc]

/-- C1: for every `last_index ≥ 1` and every starting position in
`[1, last_index]`, applying the Advance transition exactly `last_index`
times returns the active position to its original value. -/
theorem advance_full_cycle (n p : Nat) (hn : 1 ≤ n) (hp1 : 1 ≤ p) (hpn : p ≤ n) :
    (advance n)^[n] p = p := by
  rw [advance_iterate n p n hn hp1 hpn, Nat.add_mod_right,
    Nat.mod_eq_of_lt (by omega)]
  omega

/-- Witness for C1 at `last_index = 5`, starting position `3`. -/
theorem advance_full_cycle_witness : (advance 5)^[5] 3 = 3 :=
  advance_full_cycle 5 3 (by decide) (by decide) (by decide)

/-- Closed form of the retreat update: positions `0` and `1` wrap to
`last_row`, any other position steps back by one. -/
theorem retreat_eq (n v : Nat) : retreat n v = if v ≤ 1 then n else v - 1 := by
  unfold retreat checkedSub
  rcases le_or_lt 1 v with h | h
  · rw [if_pos h]
    show (if v - 1 = 0 then n else v - 1) = if v ≤ 1 then n else v - 1
    by_cases h2 : v ≤ 1
    · rw [if_pos (by omega), if_pos h2]
    · rw [if_neg (by omega), if_neg h2]
  · rw [if_neg (by omega)]
    show n = if v ≤ 1 then n else v - 1
    rw [if_pos (by omega)]

/-- C2: for `1 ≤ p ≤ last_index` with `p ≠ last_index`, Retreat undoes
Advance; Retreat from `1` yields `last_index` and Advance from `last_index`
yields `1`. -/
theorem advance_retreat_inverses (n p : Nat) (hn : 1 ≤ n) (hp1 : 1 ≤ p) (hpn : p ≤ n) :
    (p ≠ n → retreat n (advance n p) = p) ∧ retreat n 1 = n ∧ advance n n = 1 := by
  refine ⟨?_, ?_, ?_⟩
  · intro hne
    have hlt : p < n := lt_of_le_of_ne hpn hne
    have hadv : advance n p = p + 1 := by
      unfold advance
      rw [if_neg (by omega)]
    rw [hadv, retreat_eq, if_neg (by omega)]
    omega
  · rw [retreat_eq, if_pos (by omega)]
  · unfold advance
    rw [if_pos (by omega)]

/-- Witness for C2 at `last_index = 5`, position `3`. -/
theorem advance_retreat_inverses_witness :
    retreat 5 (advance 5 3) = 3 ∧ retreat 5 1 = 5 ∧ advance 5 5 = 1 := by
  have h := advance_retreat_inverses 5 3 (by decide) (by decide) (by decide)
  exact ⟨h.1 (by decide), h.2.1, h.2.2⟩

/-- C3 counterexample: with `last_index = 4`, `current_thread = 4` and
`BatchSize = 8`, the Continuous threading calculator invokes the provider
lookup at thread index `5`, which exceeds `last_index`. -/
theorem threading_lookup_out_of_range :
    (5 : Int) ∈ threadingLookupCalls ThreadingMode.continuous 4 8 ∧
      ((5 : Int) ≤ 0 ∨ (4 : Int) < 5) := by
  decide

/-- C3 (amended): out-of-range window slots always render as placeholders in
both calculators, the liftplan/treadling calculator performs lookups only for
in-range rows, and the threading calculator never looks up indices `≤ 0` —
but the threading calculator does invoke the shaft lookup for every window
index `> 0`, including indices above `last_index` (the result is discarded). -/
theorem window_placeholder_contract (lookup : Nat → Option (List Nat))
    (color : Nat → Option (Nat × Nat × Nat)) (tm : ThreadingMode)
    (warp batchSize row lastRow : Nat) :
    (∀ p ∈ threadingCells lookup color tm warp batchSize lastRow,
      p.1 ≤ 0 ∨ (lastRow : Int) < p.1 → p.2 = ThreadingCell.placeholder) ∧
    (∀ p ∈ liftplanCells lookup color row lastRow,
      p.1 ≤ 0 ∨ (lastRow : Int) < p.1 → p.2 = LiftplanCell.placeholder) ∧
    (∀ t ∈ liftplanLookupCalls row lastRow, 1 ≤ t ∧ t ≤ (lastRow : Int)) ∧
    (∀ t ∈ threadingLookupCalls tm warp batchSize, 1 ≤ t) ∧
    (∀ t ∈ threadingRange tm warp batchSize, 0 < t →
      t ∈ threadingLookupCalls tm warp batchSize) := by
  refine ⟨?_, ?_, ?_, ?_, ?_⟩
  · intro p hp hout
    simp only [threadingCells, List.mem_map] at hp
    obtain ⟨e, he, rfl⟩ := hp
    simp only at hout ⊢
    rw [if_pos hout]
  · intro p hp hout
    simp only [liftplanCells, List.mem_map] at hp
    obtain ⟨o, ho, rfl⟩ := hp
    simp only at hout ⊢
    rw [if_pos hout]
  · intro t ht
    simp only [liftplanLookupCalls, List.mem_filter, decide_eq_true_eq] at ht
    omega
  · intro t ht
    simp only [threadingLookupCalls, List.mem_filter, decide_eq_true_eq] at ht
    omega
  · intro t ht h0
    simp only [threadingLookupCalls, List.mem_filter, decide_eq_true_eq]
    exact ⟨ht, h0⟩

/-- Witness for C3 (amended): with `current_row = 3` and `last_index = 4`,
row `3` is looked up and lies within bounds. -/
theorem window_placeholder_contract_witness : (1 : Int) ≤ 3 ∧ (3 : Int) ≤ (4 : Nat) :=
  (window_placeholder_contract (fun _ => some [1]) (fun _ => some (0, 0, 0))
      ThreadingMode.continuous 4 8 3 4).2.2.1 3 (by decide)

/-- C4: in Batched sub-mode the window is exactly the `BatchSize` consecutive
indices starting at `(current_thread - 1) / BatchSize * BatchSize + 1`; in
particular thread 10 with batch 8 sees `9..=16` and thread 17 sees `17..=24`. -/
theorem threading_batched_window (warp batchSize : Nat)
    (hw : 1 ≤ warp) (hb1 : 1 ≤ batchSize) (hb2 : batchSize ≤ 25) :
    (∀ t : Int, t ∈ threadingRange ThreadingMode.batched warp batchSize ↔
      (((warp - 1) / batchSize * batchSize + 1 : Nat) : Int) ≤ t ∧
        t < (((warp - 1) / batchSize * batchSize + 1 : Nat) : Int) + batchSize) ∧
    (threadingRange ThreadingMode.batched warp batchSize).length = batchSize ∧
    threadingRange ThreadingMode.batched 10 8 = [9, 10, 11, 12, 13, 14, 15, 16] ∧
    threadingRange ThreadingMode.batched 17 8 = [17, 18, 19, 20, 21, 22, 23, 24] := by
  refine ⟨?_, ?_, by decide, by decide⟩
  · intro t
    exact mem_intRange (((warp - 1) / batchSize * batchSize + 1 : Nat) : Int) batchSize t
  · exact length_intRange (((warp - 1) / batchSize * batchSize + 1 : Nat) : Int) batchSize

/-- Witness for C4: the instance `current_thread = 10`, `BatchSize = 8`. -/
theorem threading_batched_window_witness :
    threadingRange ThreadingMode.batched 10 8 = [9, 10, 11, 12, 13, 14, 15, 16] :=
  (threading_batched_window 10 8 (by decide) (by decide) (by decide)).2.2.1

/-- C5: in Continuous sub-mode the window is exactly
`[current_thread - 2, current_thread - 2 + BatchSize)`; with `BatchSize ≥ 3`
the current thread occupies the third window slot; slots with index `≤ 0` are
placeholders rather than wrapped indices; thread 10 with batch 8 sees
`8..=15`. -/
theorem threading_continuous_window (lookup : Nat → Option (List Nat))
    (color : Nat → Option (Nat × Nat × Nat)) (warp batchSize lastRow : Nat)
    (hw : 1 ≤ warp) (hb1 : 1 ≤ batchSize) (hb2 : batchSize ≤ 25) :
    (∀ t : Int, t ∈ threadingRange ThreadingMode.continuous warp batchSize ↔
      (warp : Int) - 2 ≤ t ∧ t < (warp : Int) - 2 + batchSize) ∧
    (3 ≤ batchSize →
      (threadingRange ThreadingMode.continuous warp batchSize)[2]? = some (warp : Int)) ∧
    (∀ p ∈ threadingCells lookup color ThreadingMode.continuous warp batchSize lastRow,
      p.1 ≤ 0 → p.2 = ThreadingCell.placeholder) ∧
    threadingRange ThreadingMode.continuous 10 8 = [8, 9, 10, 11, 12, 13, 14, 15] := by
  refine ⟨?_, ?_, ?_, by decide⟩
  · intro t
    exact mem_intRange ((warp : Int) - 2) batchSize t
  · intro h3
    calc (threadingRange ThreadingMode.continuous warp batchSize)[2]?
        = some ((warp : Int) - 2 + 2) := getElem2_intRange ((warp : Int) - 2) batchSize (by omega)
      _ = some (warp : Int) := by norm_num
  · intro p hp h0
    simp only [threadingCells, List.mem_map] at hp
    obtain ⟨e, he, rfl⟩ := hp
    simp only at h0 ⊢
    rw [if_pos (Or.inl h0)]

/-- Witness for C5: the instance `current_thread = 10`, `BatchSize = 8`. -/
theorem threading_continuous_window_witness :
    threadingRange ThreadingMode.continuous 10 8 = [8, 9, 10, 11, 12, 13, 14, 15] :=
  (threading_continuous_window (fun _ => some [1]) (fun _ => some (0, 0, 0))
      10 8 20 (by decide) (by decide) (by decide)).2.2.2

/-- C6 counterexample: the fixed liftplan/treadling window offsets are
`-2..6`, which is not centered on the current row: offset `6` is in the
window but offset `-6` is not. -/
theorem liftplan_window_not_centered :
    (6 : Int) ∈ liftplanOffsets ∧ (-6 : Int) ∉ liftplanOffsets := by
  decide

/-- C6 (amended): the liftplan/treadling window is the fixed nine offsets
`-2..6` relative to `current_row` (two rows behind through six ahead, so the
current row is the third of nine slots, not the center), and any offset whose
row falls outside `[1, last_index]` renders as a placeholder. -/
theorem liftplan_window_shape (lookup : Nat → Option (List Nat))
    (color : Nat → Option (Nat × Nat × Nat)) (row lastRow : Nat) :
    (liftplanCells lookup color row lastRow).length = 9 ∧
    ((liftplanCells lookup color row lastRow).map Prod.fst =
      liftplanOffsets.map fun o => (row : Int) + o) ∧
    (∀ o ∈ liftplanOffsets, -2 ≤ o ∧ o ≤ 6) ∧
    ((liftplanCells lookup color row lastRow).map Prod.fst)[2]? = some (row : Int) ∧
    (∀ p ∈ liftplanCells lookup color row lastRow,
      p.1 ≤ 0 ∨ (lastRow : Int) < p.1 → p.2 = LiftplanCell.placeholder) := by
  refine ⟨?_, ?_, by decide, ?_, ?_⟩
  · simp [liftplanCells, liftplanOffsets]
  · simp [liftplanCells, List.map_map, Function.comp]
  · simp [liftplanCells, liftplanOffsets]
  · intro p hp hout
    simp only [liftplanCells, List.mem_map] at hp
    obtain ⟨o, ho, rfl⟩ := hp
    simp only at hout ⊢
    rw [if_pos hout]

/-- Witness for C6 (amended): offset 6 lies within the fixed window bounds. -/
theorem liftplan_window_shape_witness : (-2 : Int) ≤ 6 ∧ (6 : Int) ≤ 6 :=
  (liftplan_window_shape (fun _ => some [1]) (fun _ => some (0, 0, 0)) 3 4).2.2.1 6 (by decide)

/-- C7: recording a sample on an estimator with `sample_count = 0` sets the
smoothed value exactly to that sample, and the sample count becomes 1. -/
theorem ewma_record_first (e : Ewma) (s : ℚ) (h : e.n = 0) :
    (e.record s).value = s ∧ (e.record s).n = 1 := by
  unfold Ewma.record
  refine ⟨?_, by rw [h]⟩
  simp only [if_pos h, if_pos (by omega : e.n < 20)]
  ring

/-- Witness for C7 on a fresh estimator with `alpha = 1/10` and sample `5`. -/
theorem ewma_record_first_witness :
    ((Ewma.new (1/10)).record 5).value = 5 ∧ ((Ewma.new (1/10)).record 5).n = 1 :=
  ewma_record_first (Ewma.new (1/10)) 5 (by decide)

/-- C8: recording a sample on an estimator with `sample_count = n ≥ 1`
increments the count by exactly 1; when `n < 20` the value becomes
`w * s + (1 - w) * value` with `w = alpha + (1 / (1 + n)) * (1 - alpha)`,
and when `n ≥ 20` it becomes `alpha * s + (1 - alpha) * value`. -/
theorem ewma_record_step (e : Ewma) (s : ℚ) (h : 1 ≤ e.n) :
    (e.record s).n = e.n + 1 ∧
    (e.n < 20 →
      (e.record s).value =
        (e.alpha + 1 / (1 + (e.n : ℚ)) * (1 - e.alpha)) * s +
          (1 - (e.alpha + 1 / (1 + (e.n : ℚ)) * (1 - e.alpha))) * e.value) ∧
    (20 ≤ e.n →
      (e.record s).value = e.alpha * s + (1 - e.alpha) * e.value) := by
  unfold Ewma.record
  refine ⟨rfl, ?_, ?_⟩
  · intro h20
    simp only [if_neg (by omega : ¬ e.n = 0), if_pos h20]
  · intro h20
    simp only [if_neg (by omega : ¬ e.n = 0), if_neg (by omega : ¬ e.n < 20)]

/-- Witness for C8 on an estimator with `alpha = 1/10`, value `4`,
`sample_count = 3`, recording sample `8`. -/
theorem ewma_record_step_witness :
    ((⟨1/10, 4, 3⟩ : Ewma).record 8).n = 4 ∧
    ((⟨1/10, 4, 3⟩ : Ewma).record 8).value =
      (1/10 + 1 / (1 + (3 : ℚ)) * (1 - 1/10)) * 8 +
        (1 - (1/10 + 1 / (1 + (3 : ℚ)) * (1 - 1/10))) * 4 := by
  have h := ewma_record_step (⟨1/10, 4, 3⟩ : Ewma) 8 (by decide)
  exact ⟨h.1, h.2.1 (by decide)⟩

/-- Setting the active position variable leaves the estimator unchanged. -/
theorem setActiveVar_averageRowSpeed (s : AppState) (v : Nat) :
    (s.setActiveVar v).averageRowSpeed = s.averageRowSpeed := by
  unfold AppState.setActiveVar
  split <;> rfl

/-- Setting the active position variable leaves `last_t` unchanged. -/
theorem setActiveVar_lastT (s : AppState) (v : Nat) :
    (s.setActiveVar v).lastT = s.lastT := by
  unfold AppState.setActiveVar
  split <;> rfl

/-- Setting the active position variable leaves the pause flag unchanged. -/
theorem setActiveVar_timerPaused (s : AppState) (v : Nat) :
    (s.setActiveVar v).timerPaused = s.timerPaused := by
  unfold AppState.setActiveVar
  split <;> rfl

/-- C9: while the timer is paused, an Advance leaves the estimator untouched
(no sample, same count and value) but still resets `last_t` to `now`;
unpausing at time `t1` and then advancing at time `t2` records exactly one
sample, of elapsed time `t2 - t1`. -/
theorem paused_advance_semantics (s : AppState) (lastRow : Nat) (now t1 t2 : ℚ)
    (h : s.timerPaused = true) :
    (advanceStep s lastRow now).averageRowSpeed = s.averageRowSpeed ∧
    (advanceStep s lastRow now).lastT = now ∧
    (advanceStep (unpauseTimer s t1) lastRow t2).averageRowSpeed =
      s.averageRowSpeed.record (t2 - t1) ∧
    (advanceStep (unpauseTimer s t1) lastRow t2).averageRowSpeed.n =
      s.averageRowSpeed.n + 1 := by
  refine ⟨?_, ?_, ?_, ?_⟩
  · simp only [advanceStep, setActiveVar_timerPaused, h]
    simp [setActiveVar_averageRowSpeed]
  · simp [advanceStep]
  · simp only [advanceStep, unpauseTimer, setActiveVar_timerPaused]
    simp [setActiveVar_averageRowSpeed, setActiveVar_lastT]
  · simp only [advanceStep, unpauseTimer, setActiveVar_timerPaused]
    simp [setActiveVar_averageRowSpeed, setActiveVar_lastT, Ewma.record]

/-- Witness for C9 on a concrete paused state. -/
theorem paused_advance_semantics_witness :
    (advanceStep ⟨1, 1, ⟨1/10, 0, 0⟩, 0, true, OperationMode.liftplan,
        ThreadingMode.continuous, 8⟩ 4 5).averageRowSpeed = (⟨1/10, 0, 0⟩ : Ewma) :=
  (paused_advance_semantics ⟨1, 1, ⟨1/10, 0, 0⟩, 0, true, OperationMode.liftplan,
      ThreadingMode.continuous, 8⟩ 4 5 6 9 rfl).1

/-- C10: the ETA subtraction at `src/app.rs:237` is a bare `u32` subtraction:
whenever the position is at most `last_index` it does not underflow, and the
displayed ETA is the hours/minutes/seconds decomposition of
`floor((last_index - position) * smoothed_duration)`; a state whose position
exceeds `last_index` (as after a reload shrinks the pattern) makes the
subtraction underflow, e.g. to `2 ^ 32 - 1` for `last_index = 4`,
position `5`. -/
theorem timings_eta (lastRow row : Nat) (avg : ℚ)
    (hr : lastRow < 2 ^ 32) (hle : row ≤ lastRow) :
    wrappingSubU32 lastRow row = lastRow - row ∧
    ((1 : ℚ) / 10 < avg →
      ∃ h m s, timingsDisplay lastRow row avg = some (h, m, s) ∧
        h * 3600 + m * 60 + s =
          (Rat.floor (((lastRow - row : Nat) : ℚ) * avg)).toNat ∧
        m < 60 ∧ s < 60) ∧
    wrappingSubU32 4 5 = 2 ^ 32 - 1 := by
  have h2 : (2 : Int) ^ 32 = 4294967296 := by norm_num
  have hsub : wrappingSubU32 lastRow row = lastRow - row := by
    unfold wrappingSubU32
    rw [h2]
    omega
  refine ⟨hsub, ?_, by decide⟩
  intro havg
  refine ⟨etaSeconds lastRow row avg / 3600, (etaSeconds lastRow row avg % 3600) / 60,
    etaSeconds lastRow row avg % 60, ?_, ?_, by omega, by omega⟩
  · unfold timingsDisplay
    rw [if_pos havg]
  · unfold etaSeconds
    rw [hsub]
    omega

/-- Witness for C10 with `last_index = 10`, position `4`, smoothed value `1`. -/
theorem timings_eta_witness : wrappingSubU32 10 4 = 6 :=
  (timings_eta 10 4 1 (by norm_num) (by norm_num)).1
